import Mathlib

/-!
Verification of the Akamai edge-cache diagnostic engine of this repository
(`akeli5.py`, request construction also in `akcurl.py`).

The Python source is shallowly embedded: strings are `String` or `List Char`,
Python `dict` is an insertion-ordered association list with in-place update,
and operations that can raise (list indexing) are modelled in `Option`, with
`none` standing for a raised exception.  The regular expressions used by the
source are small and are embedded directly by their leftmost-match semantics.

Python's `str.lower`/`str.upper` and `re.IGNORECASE` are modelled with the
ASCII case maps `Char.toLower`/`Char.toUpper`; all header names, directive
names and patterns involved are ASCII, and no claim depends on non-ASCII
case folding.  Likewise `\d` and `int()` are modelled with ASCII digits.
-/

/-! ## Python string primitives -/

/-- `isPre pat l` is true when `pat` is an initial run of `l`. -/
def isPre : List Char → List Char → Bool
  | [], _ => true
  | _ :: _, [] => false
  | a :: as, b :: bs => a = b && isPre as bs

/-- First occurrence of a (nonempty) pattern inside a list: returns the text
before the occurrence and the text after it.  This is the primitive behind
Python's `in`, `split`, `replace` and `re.search` for literal patterns. -/
def findSub (pat : List Char) : List Char → Option (List Char × List Char)
  | [] => none
  | c :: rest =>
    if isPre pat (c :: rest) then some ([], List.drop pat.length (c :: rest))
    else
      match findSub pat rest with
      | some (b, a) => some (c :: b, a)
      | none => none

/-- Python's `pat in s` (for the nonempty literal patterns used by the source). -/
def containsSub (pat l : List Char) : Bool := (findSub pat l).isSome

/-- The text before the first occurrence of `pat`, or all of `l` when `pat`
does not occur.  This is Python's `l.split(pat)[0]`, which never raises
because `split` always returns at least one piece. -/
def beforeFirst (pat l : List Char) : List Char :=
  match findSub pat l with
  | some (b, _) => b
  | none => l

/-- Python's `l.split(pat)` for a nonempty `pat`: repeatedly cut at the first
occurrence, scanning left to right without overlap.  The fuel argument only
drives structural recursion; `l.length + 1` cuts always suffice because each
cut consumes at least one character of the remainder. -/
def pySplitGo (pat : List Char) : Nat → List Char → List (List Char)
  | 0, l => [l]
  | fuel + 1, l =>
    match findSub pat l with
    | none => [l]
    | some (b, a) => b :: pySplitGo pat fuel a

/-- Python's `l.split(pat)` (nonempty separator). -/
def pySplit (pat l : List Char) : List (List Char) := pySplitGo pat (l.length + 1) l

/-- Python's `l.split(pat, 1)`: at most one cut, at the first occurrence. -/
def pySplitOnce (pat l : List Char) : List (List Char) :=
  match findSub pat l with
  | some (b, a) => [b, a]
  | none => [l]

/-- Python's `l.replace(pat, "")` (nonempty `pat`): remove every occurrence,
scanning left to right.  Fuel as in `pySplitGo`. -/
def removeAllGo (pat : List Char) : Nat → List Char → List Char
  | 0, l => l
  | fuel + 1, l =>
    match findSub pat l with
    | none => l
    | some (b, a) => b ++ removeAllGo pat fuel a

/-- Python's `l.replace(pat, "")`. -/
def removeAll (pat l : List Char) : List Char := removeAllGo pat (l.length + 1) l

/-- The characters stripped by Python's default `str.strip()`. -/
def pySpace (c : Char) : Bool :=
  c == ' ' || c == '\t' || c == '\n' || c == '\r' || c == '\x0b' || c == '\x0c'

/-- Python's `str.strip()`. -/
def pyStrip (l : List Char) : List Char :=
  List.reverse (List.dropWhile pySpace (List.reverse (List.dropWhile pySpace l)))

/-- Python's `str.lower()` (ASCII). -/
def lowerL (l : List Char) : List Char := List.map Char.toLower l

/-- Python's `str.upper()` (ASCII). -/
def upperL (l : List Char) : List Char := List.map Char.toUpper l

/-- `int()` on a nonempty run of ASCII digits (how the source converts the
numeric capture groups of its regexes). -/
def readNat (ds : List Char) : Nat :=
  List.foldl (fun n c => 10 * n + (c.toNat - '0'.toNat)) 0 ds

/-- `re.search(pat ++ "(\d+)", l)` for a literal `pat`: scan for the leftmost
position where the literal is followed by at least one digit and return the
value of the maximal digit run there.  A position where the literal occurs
without a following digit is not a match and scanning continues, exactly as
the backtracking regex engine does. -/
def findNumAfter (pat : List Char) : List Char → Option Nat
  | [] => none
  | c :: rest =>
    if isPre pat (c :: rest) then
      match List.takeWhile Char.isDigit (List.drop pat.length (c :: rest)) with
      | [] => findNumAfter pat rest
      | d :: ds => some (readNat (d :: ds))
    else findNumAfter pat rest

/-! ## Python dict as an insertion-ordered association list -/

/-- First-match lookup in an association list.  Because `dictInsert` keeps
keys unique, this is the lookup of the Python `dict` the list models. -/
def assocLookup : List (String × String) → String → Option String
  | [], _ => none
  | (a, b) :: rest, k => if a = k then some b else assocLookup rest k

/-- Python's `d[k] = v`: overwrite in place if the key is present, else append. -/
def dictInsert : List (String × String) → String × String → List (String × String)
  | [], p => [p]
  | (a, b) :: rest, (k, v) =>
    if a = k then (a, v) :: rest else (a, b) :: dictInsert rest (k, v)

/-- Python's `d.get(k, dflt)`. -/
def dictGet (d : List (String × String)) (k dflt : String) : String :=
  (assocLookup d k).getD dflt

/-- The value of the last (rightmost) pair with key `k` in a plain pair list. -/
def lookupLast (ps : List (String × String)) (k : String) : Option String :=
  assocLookup ps.reverse k

/-- Equality of the maps denoted by two association lists (Python `dict`
equality ignores insertion order). -/
def mapEquiv (d1 d2 : List (String × String)) : Prop :=
  ∀ k, assocLookup d1 k = assocLookup d2 k

/-! ## The origin TTL resolver (`_parse_origin_ttl`, src/akeli5.py:236-277) -/

/-- The literal part of the pattern `s-maxage=(\d+)` (searched with
`re.IGNORECASE`, modelled by lowering the subject first). -/
def smaxagePat : List Char := ("s-maxage=").data

/-- The literal part of the pattern `max-age=(\d+)`. -/
def maxagePat : List Char := ("max-age=").data

/-- `re.search(r"no-cache|no-store|private", cc, re.IGNORECASE)` seen as a
Boolean: only the existence of a match is used by the source. -/
def noCacheM (cc : List Char) : Bool :=
  containsSub ("no-cache").data cc || containsSub ("no-store").data cc ||
    containsSub ("private").data cc

/-- The try-block body of the `Expires`/`Date` fallback of `_parse_origin_ttl`
evaluates `parsedate_to_datetime(expires).replace(tzinfo=timezone.utc)`.
The module never imports or defines the name `timezone` (its imports are
`requests`, `sys`, `urllib.parse`, `re`, `email.utils.parsedate_to_datetime`,
`typing`, `http.client` and `rich`), so this expression raises `NameError`
for every pair of header values, before any date comparison can happen, and
the surrounding `except Exception: pass` discards the error.  The body
therefore never produces a value, which we model with the constant `none`. -/
def expiresDateDelta (_expires _date_header : String) : Option (Option Nat × String) :=
  none

/-- The Cache-Control part of `_parse_origin_ttl`: value and source chosen
from `s-maxage`, then `max-age`, then the `no-cache`/`no-store`/`private`
override applied.  The six cases spell out the straight-line source: first
`(ttl, source)` is set by the first matching directive, then, when the
no-cache search hit, `ttl` becomes `0` and the source gains the
`" (overridden by no-cache/private)"` suffix exactly when the chosen ttl was
a positive number, else becomes plain `"no-cache/private"`. -/
def ccBase (cache_control : String) : Option Nat × String :=
  if cache_control ≠ "unknown" then
    match findNumAfter smaxagePat (lowerL cache_control.data),
        findNumAfter maxagePat (lowerL cache_control.data),
        noCacheM (lowerL cache_control.data) with
    | some n, _, false => (some n, "s-maxage")
    | some n, _, true =>
      (some 0, if 0 < n then "s-maxage (overridden by no-cache/private)" else "no-cache/private")
    | none, some n, false => (some n, "max-age")
    | none, some n, true =>
      (some 0, if 0 < n then "max-age (overridden by no-cache/private)" else "no-cache/private")
    | none, none, false => (none, "unknown")
    | none, none, true => (some 0, "no-cache/private")
  else (none, "unknown")

/-- `_parse_origin_ttl(cache_control, expires, date_header)`: the
Cache-Control step, then, only when it produced no ttl, the `Expires`/`Date`
fallback, whose try-body never succeeds (see `expiresDateDelta`). -/
def parse_origin_ttl (cache_control expires date_header : String) :
    Option Nat × String :=
  match ccBase cache_control with
  | (some t, s) => (some t, s)
  | (none, s) =>
    if expires ≠ "unknown" ∧ date_header ≠ "unknown" then
      match expiresDateDelta expires date_header with
      | some r => r
      | none => (none, s)
    else (none, s)

/-! ## The session-info parser (`parse_session_info`, src/akeli5.py:104-123)

The parser is parameterized by `unq`, the external library function
`urllib.parse.unquote` applied to `UA_IDENTIFIER` values; every general
theorem below holds for an arbitrary `unq`.  `pyUnquote` is a concrete
instance used for closed evaluations (faithful to `unquote` on the ASCII
escapes; no claim exercises multi-byte escapes).  List indexing (`parts[1]`)
is modelled with `List.get?` in `Option`, `none` standing for `IndexError`. -/

/-- Hex digit value, as in a `%XX` escape. -/
def hexVal (c : Char) : Option Nat :=
  if '0' ≤ c ∧ c ≤ '9' then some (c.toNat - '0'.toNat)
  else if 'a' ≤ c ∧ c ≤ 'f' then some (c.toNat - 'a'.toNat + 10)
  else if 'A' ≤ c ∧ c ≤ 'F' then some (c.toNat - 'A'.toNat + 10)
  else none

/-- ASCII core of `urllib.parse.unquote`: decode `%XX` escapes whose value is
below 128, leave everything else unchanged. -/
def unquoteGo : List Char → List Char
  | [] => []
  | [c] => [c]
  | [c, a] => c :: unquoteGo [a]
  | c :: a :: b :: rest2 =>
    if c = '%' then
      match hexVal a, hexVal b with
      | some x, some y =>
        if 16 * x + y < 128 then Char.ofNat (16 * x + y) :: unquoteGo rest2
        else c :: unquoteGo (a :: b :: rest2)
      | _, _ => c :: unquoteGo (a :: b :: rest2)
    else c :: unquoteGo (a :: b :: rest2)

/-- Concrete stand-in for `urllib.parse.unquote` (see section comment). -/
def pyUnquote (s : String) : String := String.mk (unquoteGo s.data)

/-- The literal `"name="`. -/
def nameMark : List Char := ("name=").data

/-- The literal `"; value="`. -/
def valMark : List Char := ("; value=").data

/-- The literal `"; full_location_id="`. -/
def flocMark : List Char := ("; full_location_id=").data

/-- The loop body of `parse_session_info` over the comma-separated candidate
pairs: a pair is processed only when it contains both `"name="` and
`"; value="`; then `parts = pair.split("; value=", 1)`, the name is
`parts[0].replace("name=", "").strip()`, the value is `parts[1].strip()`
truncated at `"; full_location_id="` when that marker occurs, and
percent-decoded when the name is `UA_IDENTIFIER`.  The indexing `parts[0]` /
`parts[1]` is in `Option`.  The accepted pairs are returned in order; the
caller folds them into the dict. -/
def parsePairs (unq : String → String) : List (List Char) → Option (List (String × String))
  | [] => some []
  | pair :: rest =>
    if containsSub nameMark pair && containsSub valMark pair then
      match List.get? (pySplitOnce valMark pair) 0, List.get? (pySplitOnce valMark pair) 1 with
      | some p0, some p1 =>
        match parsePairs unq rest with
        | some tail =>
          some ((String.mk (pyStrip (removeAll nameMark p0)),
                 sessionValue unq (pyStrip (removeAll nameMark p0)) (pyStrip p1)) :: tail)
        | none => none
      | _, _ => none
    else parsePairs unq rest
where
  /-- Value post-processing: `full_location_id` truncation, then the
  `UA_IDENTIFIER` percent-decode. -/
  sessionValue (unq : String → String) (name_part v1 : List Char) : String :=
    let v2 := if containsSub flocMark v1 then beforeFirst flocMark v1 else v1
    if String.mk name_part = "UA_IDENTIFIER" then unq (String.mk v2) else String.mk v2

/-- `parse_session_info(session_info_value)`: empty input short-circuits to
the empty dict (`if not session_info_value`), otherwise the comma-split
candidate pairs are processed in order and inserted into the dict. -/
def parse_session_info (unq : String → String) (session_info_value : String) :
    Option (List (String × String)) :=
  if session_info_value = "" then some []
  else (parsePairs unq (pySplit [','] session_info_value.data)).map (List.foldl dictInsert [])

/-- Per-segment acceptance function: `some (name, value)` when the segment is
accepted, `none` when it is skipped.  This total reformulation of the loop
body is related to `parsePairs` by `parsePairs_eq` below and is used to state
theorems. -/
def segPair (unq : String → String) (pair : List Char) : Option (String × String) :=
  if containsSub nameMark pair && containsSub valMark pair then
    match pySplitOnce valMark pair with
    | p0 :: p1 :: _ =>
      some (String.mk (pyStrip (removeAll nameMark p0)),
            parsePairs.sessionValue unq (pyStrip (removeAll nameMark p0)) (pyStrip p1))
    | _ => none
  else none

/-- The accepted `(name, value)` pairs of a segment list, in order. -/
def acceptedPairs (unq : String → String) (segs : List (List Char)) :
    List (String × String) :=
  List.filterMap (segPair unq) segs

/-! ## The cache-key TTL extractor (`_parse_cache_key_ttl`, src/akeli5.py:213-218)

The regex `/(?:S/)?L/[^/]+/[^/]+/([^/]+)/` is embedded by its leftmost-match
semantics: `searchCK` scans for the leftmost `/` at which the rest of the
pattern matches; at such a position the engine first tries to consume an
`S/`, falling back to the empty alternative; each `[^/]+/` deterministically
takes the maximal nonempty run of non-slash characters and the slash after
it (greedy matching cannot backtrack into `[^/]+` because shortening the run
still leaves a non-slash character where `/` is required). -/

/-- Match `[^/]+/`: the maximal nonempty run of non-slash characters followed
by a slash; returns the run and the text after the slash. -/
def matchSeg (l : List Char) : Option (List Char × List Char) :=
  match List.dropWhile (fun x => x != '/') l with
  | [] => none
  | _ :: rest =>
    if List.takeWhile (fun x => x != '/') l = [] then none
    else some (List.takeWhile (fun x => x != '/') l, rest)

/-- Match `[^/]+/[^/]+/([^/]+)/` and return the capture group. -/
def matchLTail (l : List Char) : Option (List Char) :=
  match matchSeg l with
  | none => none
  | some (_, r1) =>
    match matchSeg r1 with
    | none => none
    | some (_, r2) =>
      match matchSeg r2 with
      | none => none
      | some (cap, _) => some cap

/-- Match `L/` then the tail of the pattern. -/
def matchL (l : List Char) : Option (List Char) :=
  match l with
  | a :: b :: r => if a = 'L' ∧ b = '/' then matchLTail r else none
  | _ => none

/-- Match `(?:S/)?L/...`: the engine tries the `S/` branch first and falls
back to the empty alternative when the rest fails. -/
def matchCore (l : List Char) : Option (List Char) :=
  match l with
  | a :: b :: r =>
    if a = 'S' ∧ b = '/' then
      match matchL r with
      | some cap => some cap
      | none => matchL l
    else matchL l
  | _ => matchL l

/-- `re.search`: try the pattern at each position from the left; the leading
literal `/` restricts candidate positions to slashes. -/
def searchCK : List Char → Option (List Char)
  | [] => none
  | c :: rest =>
    if c = '/' then
      match matchCore rest with
      | some cap => some cap
      | none => searchCK rest
    else searchCK rest

/-- `_parse_cache_key_ttl(cache_key)`: `None` for an empty (falsy) or
`"unknown"` key, else the regex capture. -/
def parse_cache_key_ttl (cache_key : String) : Option String :=
  if cache_key = "" ∨ cache_key = "unknown" then none
  else (searchCK cache_key.data).map String.mk

/-! ## The analysis extractor (`extract_analysis_data`, src/akeli5.py:126-180) -/

/-- The literal `" from "`. -/
def fromMark : List Char := (" from ").data

/-- `headers_lower = {k.lower(): v for k, v in headers.items()}`: the raw
header list folded into a dict keyed by the lowercased names; a later entry
whose lowered name collides overwrites the earlier one, as in the Python
dict comprehension. -/
def headersLower (headers : List (String × String)) : List (String × String) :=
  List.foldl (fun d kv => dictInsert d (String.mk (lowerL kv.1.data), kv.2)) [] headers

/-- The fixed field set of the analysis record built by
`extract_analysis_data`.  Every field is a `String`; presence of every field
is intrinsic to the structure type. -/
structure AnalysisData where
  cache_status_raw : String
  cache_status : String
  cache_server_hostname : String
  cacheability : String
  cache_key : String
  true_cache_key : String
  edge_server : String
  serial : String
  request_id : String
  client_ip : String
  origin_server : String
  midmile_rtt : String
  origin_latency : String
  date : String
  content_type : String
  content_length : String
  last_modified : String
  etag : String
  expires : String
  cache_control : String
  vary : String
  akamai_network : String
  property_name : String
  property_version : String
  fwd_url : String
  sr_enabled : String
  td_enabled : String
  client_city : String
  client_country : String

/-- `extract_analysis_data(headers)`.  The two spots where the Python could
raise are modelled in `Option`: the `" from "` hostname slice
(`split(" from ")[1]`, guarded by the `in` test) and the session-info loop
(`parts[1]`, guarded by its `in` tests).  Everything else is per-field dict
lookup with the `"N/A"` default, as in the source. -/
def extract_analysis_data (unq : String → String) (headers : List (String × String)) :
    Option AnalysisData := do
  let hl := headersLower headers
  let raw := dictGet hl "x-cache" "N/A"
  let host ←
    if containsSub fromMark raw.data then
      (List.get? (pySplit fromMark raw.data) 1).map
        (fun p => String.mk (beforeFirst [' '] p))
    else some "N/A"
  let si ← parse_session_info unq (dictGet hl "x-akamai-session-info" "")
  some {
    cache_status_raw := raw
    cache_status :=
      if raw ≠ "N/A" then String.mk (beforeFirst [' '] raw.data) else "N/A"
    cache_server_hostname := host
    cacheability := dictGet hl "x-check-cacheable" "N/A"
    cache_key := dictGet hl "x-cache-key" "N/A"
    true_cache_key := dictGet hl "x-true-cache-key" "N/A"
    edge_server := dictGet hl "x-cache-server" "N/A"
    serial := dictGet hl "x-serial" "N/A"
    request_id := dictGet hl "x-akamai-request-id" "N/A"
    client_ip :=
      String.mk (pyStrip (beforeFirst [','] (dictGet hl "x-akamai-pragma-client-ip" "N/A").data))
    origin_server := dictGet hl "x-origin-server" "N/A"
    midmile_rtt := dictGet hl "x-edgeconnect-midmile-rtt" "N/A"
    origin_latency := dictGet hl "x-edgeconnect-origin-mex-latency" "N/A"
    date := dictGet hl "date" "N/A"
    content_type := dictGet hl "content-type" "N/A"
    content_length := dictGet hl "content-length" "N/A"
    last_modified := dictGet hl "last-modified" "N/A"
    etag := dictGet hl "etag" "N/A"
    expires := dictGet hl "expires" "N/A"
    cache_control := dictGet hl "cache-control" "N/A"
    vary := dictGet hl "vary" "N/A"
    akamai_network :=
      if String.mk (upperL (dictGet hl "x-akamai-staging" "").data) = "ESSL" then
        "Akamai Staging"
      else "Akamai Production"
    property_name := dictGet si "AKA_PM_PROPERTY_NAME" "N/A"
    property_version := dictGet si "AKA_PM_PROPERTY_VERSION" "N/A"
    fwd_url := dictGet si "AKA_PM_FWD_URL" "N/A"
    sr_enabled := dictGet si "AKA_PM_SR_ENABLED" "N/A"
    td_enabled := dictGet si "AKA_PM_TD_ENABLED" "N/A"
    client_city := dictGet si "PMUSER_CITY" "N/A"
    client_country := dictGet si "PMUSER_COUNTRY" "N/A" }

/-! ## Request-header construction (src/akcurl.py:163-175, src/akeli5.py:545-555) -/

/-- The Directive Catalog (identical lists in `akcurl.py` and `akeli5.py`). -/
def DEFAULT_AKAMAI_PRAGMA_HEADERS : List String := [
  "akamai-x-cache-on",
  "akamai-x-cache-remote-on",
  "akamai-x-check-cacheable",
  "akamai-x-get-cache-key",
  "akamai-x-get-extracted-values",
  "akamai-x-get-nonces",
  "akamai-x-get-request-id",
  "akamai-x-get-request-trace",
  "akamai-x-get-ssl-client-session-id",
  "akamai-x-get-true-cache-key",
  "akamai-x-serial-no",
  "akamai-x-feo-trace",
  "akamai-x-get-client-ip",
  "x-akamai-logging-mode: verbose"]

/-- The request-header construction of `fetch_akamai_headers` in
`src/akcurl.py` (the network call itself is external I/O, outside the
embedding): an empty directive list yields no `Pragma` header at all, a
nonempty one yields `Pragma` bound to the `","`-join; then the fixed
`User-Agent` is inserted. -/
def build_request_headers (pragma_directives : List String) : List (String × String) :=
  let req := if pragma_directives = [] then []
    else [("Pragma", String.intercalate "," pragma_directives)]
  dictInsert req ("User-Agent", "CBC/Akamai cURL/1.0")

/-- The request headers of `fetch_headers_for_analysis` in `src/akeli5.py`,
which always joins the full Directive Catalog. -/
def analysis_request_headers : List (String × String) :=
  dictInsert [("Pragma", String.intercalate "," DEFAULT_AKAMAI_PRAGMA_HEADERS)]
    ("User-Agent", "CBC/Akamai Ananysis/1.0")

/-! ## Spec-side definition for claim C6 -/

/-- Written from the claim's words, not from the source: the first
whitespace-delimited token of a string (Python's `s.split()[0]`: skip leading
whitespace, take up to the next whitespace character). -/
def specFirstWsToken (s : String) : String :=
  String.mk (List.takeWhile (fun c => !pySpace c) (List.dropWhile pySpace s.data))

/-! ## Total closed form of the extractor (proof artifact)

`extract_analysis_data` is written in `Option` so that "the extractor never
raises" is a theorem rather than a typing accident.  `extractTotal` is the
same record with the two guarded partial steps replaced by their total
closed forms; `extract_eq` below proves the two agree, which is exactly the
statement that the guards make the indexing safe. -/

/-- Total form of the `cache_server_hostname` slice: when `" from "` occurs,
`split(" from ")[1]` exists (`pySplit` then has at least two pieces), so the
indexing can be written with `List.getD`. -/
def hostnameTotal (raw : String) : String :=
  if containsSub fromMark raw.data then
    String.mk (beforeFirst [' '] (List.getD (pySplit fromMark raw.data) 1 []))
  else "N/A"

/-- Total closed form of `extract_analysis_data` (see section comment). -/
def extractTotal (unq : String → String) (headers : List (String × String)) :
    AnalysisData :=
  let hl := headersLower headers
  let raw := dictGet hl "x-cache" "N/A"
  let si := List.foldl dictInsert []
    (acceptedPairs unq (pySplit [','] (dictGet hl "x-akamai-session-info" "").data))
  { cache_status_raw := raw
    cache_status :=
      if raw ≠ "N/A" then String.mk (beforeFirst [' '] raw.data) else "N/A"
    cache_server_hostname := hostnameTotal raw
    cacheability := dictGet hl "x-check-cacheable" "N/A"
    cache_key := dictGet hl "x-cache-key" "N/A"
    true_cache_key := dictGet hl "x-true-cache-key" "N/A"
    edge_server := dictGet hl "x-cache-server" "N/A"
    serial := dictGet hl "x-serial" "N/A"
    request_id := dictGet hl "x-akamai-request-id" "N/A"
    client_ip :=
      String.mk (pyStrip (beforeFirst [','] (dictGet hl "x-akamai-pragma-client-ip" "N/A").data))
    origin_server := dictGet hl "x-origin-server" "N/A"
    midmile_rtt := dictGet hl "x-edgeconnect-midmile-rtt" "N/A"
    origin_latency := dictGet hl "x-edgeconnect-origin-mex-latency" "N/A"
    date := dictGet hl "date" "N/A"
    content_type := dictGet hl "content-type" "N/A"
    content_length := dictGet hl "content-length" "N/A"
    last_modified := dictGet hl "last-modified" "N/A"
    etag := dictGet hl "etag" "N/A"
    expires := dictGet hl "expires" "N/A"
    cache_control := dictGet hl "cache-control" "N/A"
    vary := dictGet hl "vary" "N/A"
    akamai_network :=
      if String.mk (upperL (dictGet hl "x-akamai-staging" "").data) = "ESSL" then
        "Akamai Staging"
      else "Akamai Production"
    property_name := dictGet si "AKA_PM_PROPERTY_NAME" "N/A"
    property_version := dictGet si "AKA_PM_PROPERTY_VERSION" "N/A"
    fwd_url := dictGet si "AKA_PM_FWD_URL" "N/A"
    sr_enabled := dictGet si "AKA_PM_SR_ENABLED" "N/A"
    td_enabled := dictGet si "AKA_PM_TD_ENABLED" "N/A"
    client_city := dictGet si "PMUSER_CITY" "N/A"
    client_country := dictGet si "PMUSER_COUNTRY" "N/A" }

/-! ## Basic lemmas about the string primitives and the dict model -/

theorem pySplitGo_ne_nil (pat : List Char) (fuel : Nat) (l : List Char) :
    pySplitGo pat fuel l ≠ [] := by
  cases fuel with
  | zero => simp [pySplitGo]
  | succ n =>
    rcases h : findSub pat l with _ | ⟨b, a⟩ <;> simp [pySplitGo, h]

theorem pySplit_shape2 (pat l : List Char) (h : containsSub pat l = true) :
    ∃ p0 p1 rest, pySplit pat l = p0 :: p1 :: rest := by
  unfold containsSub at h
  rcases hf : findSub pat l with _ | ⟨b, a⟩
  · rw [hf] at h
    simp at h
  · rcases List.exists_cons_of_ne_nil (pySplitGo_ne_nil pat l.length a) with ⟨p1, rest, hpr⟩
    exact ⟨b, p1, rest, by unfold pySplit; simp only [pySplitGo, hf, hpr]⟩

theorem assocLookup_dictInsert (d : List (String × String)) (k v q : String) :
    assocLookup (dictInsert d (k, v)) q = if q = k then some v else assocLookup d q := by
  induction d with
  | nil =>
    simp only [dictInsert, assocLookup]
    by_cases h : k = q
    · subst h
      simp
    · rw [if_neg h, if_neg (fun hh => h hh.symm)]
  | cons p rest ih =>
    obtain ⟨a, b⟩ := p
    simp only [dictInsert]
    by_cases hak : a = k
    · subst hak
      rw [if_pos rfl]
      simp only [assocLookup]
      by_cases hqa : a = q
      · subst hqa
        simp
      · rw [if_neg hqa, if_neg (fun hh => hqa hh.symm), if_neg hqa]
    · rw [if_neg hak]
      simp only [assocLookup]
      by_cases hqa : a = q
      · subst hqa
        rw [if_pos rfl, if_neg hak, if_pos rfl]
      · rw [if_neg hqa, if_neg hqa, ih]

theorem foldl_dictInsert_lookup (ps : List (String × String)) (k : String) :
    assocLookup (List.foldl dictInsert [] ps) k = lookupLast ps k := by
  induction ps using List.reverseRecOn with
  | nil => rfl
  | append_singleton ps p ih =>
    obtain ⟨a, b⟩ := p
    rw [List.foldl_append]
    simp only [List.foldl]
    rw [assocLookup_dictInsert]
    unfold lookupLast
    rw [List.reverse_append]
    simp only [List.reverse_cons, List.reverse_nil, List.nil_append, List.singleton_append,
      assocLookup]
    by_cases h : k = a
    · subst h
      rw [if_pos rfl, if_pos rfl]
    · rw [if_neg h, if_neg (fun hh => h hh.symm), ih]
      rfl

theorem assocLookup_eq_none_iff (d : List (String × String)) (k : String) :
    assocLookup d k = none ↔ k ∉ List.map Prod.fst d := by
  induction d with
  | nil => simp [assocLookup]
  | cons p rest ih =>
    obtain ⟨a, b⟩ := p
    simp only [assocLookup, List.map_cons, List.mem_cons]
    by_cases h : a = k
    · subst h
      simp
    · rw [if_neg h, ih]
      constructor
      · rintro hnone (h1 | h2)
        · exact h h1.symm
        · exact hnone h2
      · intro hni
        exact fun h2 => hni (Or.inr h2)

theorem mem_of_assocLookup_eq_some (d : List (String × String)) (k v : String)
    (h : assocLookup d k = some v) : (k, v) ∈ d := by
  induction d with
  | nil => simp [assocLookup] at h
  | cons p rest ih =>
    obtain ⟨a, b⟩ := p
    simp only [assocLookup] at h
    by_cases hak : a = k
    · subst hak
      rw [if_pos rfl] at h
      simp_all
    · rw [if_neg hak] at h
      exact List.mem_cons_of_mem _ (ih h)

theorem assocLookup_eq_some_of_mem (d : List (String × String)) (k v : String)
    (hn : (List.map Prod.fst d).Nodup) (h : (k, v) ∈ d) :
    assocLookup d k = some v := by
  induction d with
  | nil => simp at h
  | cons p rest ih =>
    obtain ⟨a, b⟩ := p
    rcases List.mem_cons.mp h with h1 | h2
    · obtain ⟨rfl, rfl⟩ := Prod.mk.injEq .. ▸ h1
      simp [assocLookup]
    · have hne : a ≠ k := by
        intro hak
        subst hak
        have : a ∈ List.map Prod.fst rest :=
          List.mem_map.mpr ⟨(a, v), h2, rfl⟩
        exact (List.nodup_cons.mp hn).1 this
      simp only [assocLookup, if_neg hne]
      exact ih (List.nodup_cons.mp hn).2 h2

theorem lookupLast_perm (ps pt : List (String × String)) (hp : ps.Perm pt)
    (hn : (List.map Prod.fst ps).Nodup) (k : String) :
    lookupLast ps k = lookupLast pt k := by
  have hrev : ps.reverse.Perm pt.reverse :=
    (ps.reverse_perm.trans hp).trans pt.reverse_perm.symm
  have hn1 : (List.map Prod.fst ps.reverse).Nodup := by
    rw [List.map_reverse, List.nodup_reverse]
    exact hn
  have hn2 : (List.map Prod.fst pt.reverse).Nodup :=
    ((hrev.map Prod.fst).nodup_iff).mp hn1
  unfold lookupLast
  cases h : assocLookup ps.reverse k with
  | none =>
    rw [assocLookup_eq_none_iff] at h
    symm
    rw [assocLookup_eq_none_iff]
    intro hc
    exact h (((hrev.map Prod.fst).mem_iff).mpr hc)
  | some v =>
    symm
    exact assocLookup_eq_some_of_mem _ _ _ hn2
      (hrev.mem_iff.mp (mem_of_assocLookup_eq_some _ _ _ h))

/-! ## Lemmas relating the session-info parser to its total reformulation -/

theorem parsePairs_eq (unq : String → String) (segs : List (List Char)) :
    parsePairs unq segs = some (acceptedPairs unq segs) := by
  induction segs with
  | nil => rfl
  | cons pair rest ih =>
    by_cases hg : (containsSub nameMark pair && containsSub valMark pair) = true
    · have hv : containsSub valMark pair = true := ((Bool.and_eq_true _ _).mp hg).2
      unfold containsSub at hv
      rcases hf : findSub valMark pair with _ | ⟨b, a⟩
      · rw [hf] at hv
        simp at hv
      · have hs : pySplitOnce valMark pair = [b, a] := by
          unfold pySplitOnce
          rw [hf]
        unfold parsePairs acceptedPairs
        rw [if_pos hg, hs, List.filterMap_cons]
        unfold segPair
        rw [if_pos hg, hs]
        simp only [List.get?, ih]
        rfl
    · unfold parsePairs acceptedPairs
      rw [if_neg hg, List.filterMap_cons]
      unfold segPair
      rw [if_neg hg]
      exact ih

theorem parse_session_info_eq (unq : String → String) (s : String) :
    parse_session_info unq s =
      some (List.foldl dictInsert [] (acceptedPairs unq (pySplit [','] s.data))) := by
  unfold parse_session_info
  by_cases hs : s = ""
  · subst hs
    rfl
  · rw [if_neg hs, parsePairs_eq]
    rfl

/-! ## The extractor never raises and equals its total closed form -/

theorem extract_eq (unq : String → String) (headers : List (String × String)) :
    extract_analysis_data unq headers = some (extractTotal unq headers) := by
  by_cases hfm :
      containsSub fromMark (dictGet (headersLower headers) "x-cache" "N/A").data = true
  · obtain ⟨p0, p1, rest, hsp⟩ := pySplit_shape2 _ _ hfm
    simp only [extract_analysis_data, extractTotal, hostnameTotal, parse_session_info_eq,
      hfm, hsp, if_true, List.get?, List.getD_cons_succ, List.getD_cons_zero,
      Option.map_some, Option.bind, Option.some.injEq]
    rfl
  · simp only [extract_analysis_data, extractTotal, hostnameTotal, parse_session_info_eq,
      hfm, if_false, Bool.false_eq_true, Option.bind, Option.some.injEq]
    rfl

/-! ## Lemmas for the cache-key pattern -/

theorem takeW_app (p : Char → Bool) (xs : List Char) (y : Char) (t : List Char)
    (hx : ∀ x ∈ xs, p x = true) (hy : p y = false) :
    List.takeWhile p (xs ++ y :: t) = xs := by
  induction xs with
  | nil => simp [List.takeWhile, hy]
  | cons a as ih =>
    have ha : p a = true := hx a (by simp)
    simp only [List.cons_append, List.takeWhile_cons, ha, if_true]
    rw [ih (fun x hmem => hx x (by simp [hmem]))]

theorem dropW_app (p : Char → Bool) (xs : List Char) (y : Char) (t : List Char)
    (hx : ∀ x ∈ xs, p x = true) (hy : p y = false) :
    List.dropWhile p (xs ++ y :: t) = y :: t := by
  induction xs with
  | nil => simp [List.dropWhile, hy]
  | cons a as ih =>
    have ha : p a = true := hx a (by simp)
    simp only [List.cons_append, List.dropWhile_cons, ha, if_true]
    exact ih (fun x hmem => hx x (by simp [hmem]))

theorem matchSeg_app (a t : List Char) (ha : a ≠ []) (hs : ∀ x ∈ a, x ≠ '/') :
    matchSeg (a ++ '/' :: t) = some (a, t) := by
  have hx : ∀ x ∈ a, (x != '/') = true := by
    intro x hm
    simpa using hs x hm
  unfold matchSeg
  rw [takeW_app _ _ _ _ hx (by decide), dropW_app _ _ _ _ hx (by decide)]
  simp [ha]

theorem matchLTail_app (a b c r : List Char) (ha : a ≠ []) (hb : b ≠ []) (hc : c ≠ [])
    (hsa : ∀ x ∈ a, x ≠ '/') (hsb : ∀ x ∈ b, x ≠ '/') (hsc : ∀ x ∈ c, x ≠ '/') :
    matchLTail (a ++ '/' :: (b ++ '/' :: (c ++ '/' :: r))) = some c := by
  simp only [matchLTail, matchSeg_app _ _ ha hsa, matchSeg_app _ _ hb hsb,
    matchSeg_app _ _ hc hsc]

theorem matchL_cons (a b : Char) (r : List Char) :
    matchL (a :: b :: r) = if a = 'L' ∧ b = '/' then matchLTail r else none := rfl

theorem matchCore_cons (a b : Char) (r : List Char) :
    matchCore (a :: b :: r) =
      if a = 'S' ∧ b = '/' then
        match matchL r with
        | some cap => some cap
        | none => matchL (a :: b :: r)
      else matchL (a :: b :: r) := rfl

theorem matchL_shape (l cap : List Char) (h : matchL l = some cap) :
    ∃ r, l = 'L' :: '/' :: r := by
  rcases l with _ | ⟨a, l1⟩
  · simp [matchL] at h
  · rcases l1 with _ | ⟨b, r⟩
    · simp [matchL] at h
    · rw [matchL_cons] at h
      split at h
      · rename_i hab
        exact ⟨r, by rw [hab.1, hab.2]⟩
      · simp at h

theorem containsSub_of_isPre (x : Char) (xs l : List Char) (h : isPre (x :: xs) l = true) :
    containsSub (x :: xs) l = true := by
  rcases l with _ | ⟨c, rest⟩
  · simp [isPre] at h
  · unfold containsSub findSub
    rw [if_pos h]
    rfl

theorem containsSub_cons_of (pat : List Char) (c : Char) (l : List Char)
    (h : containsSub pat l = true) : containsSub pat (c :: l) = true := by
  unfold containsSub at h ⊢
  obtain ⟨⟨b, a⟩, hf⟩ := Option.isSome_iff_exists.mp h
  unfold findSub
  split
  · rfl
  · rw [hf]
    rfl

theorem matchCore_contains (l cap : List Char) (h : matchCore l = some cap) :
    containsSub ['L', '/'] l = true := by
  have hL : ∀ r2 : List Char, containsSub ['L', '/'] ('L' :: '/' :: r2) = true := by
    intro r2
    exact containsSub_of_isPre _ _ _ (by simp [isPre])
  rcases l with _ | ⟨a, l1⟩
  · simp [matchCore, matchL] at h
  · rcases l1 with _ | ⟨b, r⟩
    · simp [matchCore, matchL] at h
    · rw [matchCore_cons] at h
      split at h
      · rename_i hab
        obtain ⟨rfl, rfl⟩ := hab
        rcases hm : matchL r with _ | cap2
        · have h2 : matchL ('S' :: '/' :: r) = some cap := by
            rw [hm] at h
            exact h
          obtain ⟨r2, hr2⟩ := matchL_shape _ _ h2
          rw [hr2]
          exact hL r2
        · obtain ⟨r2, hr2⟩ := matchL_shape _ _ hm
          rw [hr2]
          exact containsSub_cons_of _ _ _ (containsSub_cons_of _ _ _ (hL r2))
      · obtain ⟨r2, hr2⟩ := matchL_shape _ _ h
        rw [hr2]
        exact hL r2

theorem searchCK_contains (l cap : List Char) (h : searchCK l = some cap) :
    containsSub ['L', '/'] l = true := by
  induction l with
  | nil => simp [searchCK] at h
  | cons c rest ih =>
    unfold searchCK at h
    split at h
    · rcases hm : matchCore rest with _ | cap2
      · rw [hm] at h
        exact containsSub_cons_of _ _ _ (ih h)
      · rw [hm] at h
        exact containsSub_cons_of _ _ _ (matchCore_contains _ _ hm)
    · exact containsSub_cons_of _ _ _ (ih h)

theorem searchCK_posL (a b c r : List Char) (ha : a ≠ []) (hb : b ≠ []) (hc : c ≠ [])
    (hsa : ∀ x ∈ a, x ≠ '/') (hsb : ∀ x ∈ b, x ≠ '/') (hsc : ∀ x ∈ c, x ≠ '/') :
    searchCK ('/' :: 'L' :: '/' :: (a ++ '/' :: (b ++ '/' :: (c ++ '/' :: r)))) = some c := by
  unfold searchCK
  rw [if_pos rfl]
  have hcore :
      matchCore ('L' :: '/' :: (a ++ '/' :: (b ++ '/' :: (c ++ '/' :: r)))) = some c := by
    simp only [matchCore, matchL]
    simp [matchLTail_app a b c r ha hb hc hsa hsb hsc]
  rw [hcore]

theorem searchCK_posS (a b c r : List Char) (ha : a ≠ []) (hb : b ≠ []) (hc : c ≠ [])
    (hsa : ∀ x ∈ a, x ≠ '/') (hsb : ∀ x ∈ b, x ≠ '/') (hsc : ∀ x ∈ c, x ≠ '/') :
    searchCK ('/' :: 'S' :: '/' :: 'L' :: '/' :: (a ++ '/' :: (b ++ '/' :: (c ++ '/' :: r))))
      = some c := by
  unfold searchCK
  rw [if_pos rfl]
  have hinner : matchL ('L' :: '/' :: (a ++ '/' :: (b ++ '/' :: (c ++ '/' :: r)))) = some c := by
    simp only [matchL]
    simp [matchLTail_app a b c r ha hb hc hsa hsb hsc]
  have hcore :
      matchCore ('S' :: '/' :: 'L' :: '/' :: (a ++ '/' :: (b ++ '/' :: (c ++ '/' :: r))))
        = some c := by
    simp only [matchCore]
    simp [hinner]
  rw [hcore]

/-! ## Claim theorems -/

/-- C1.  The claim states the `Expires`/`Date` fallback of the origin TTL
resolver: with no Cache-Control TTL and both dates present, `Expires > Date`
should give the whole-second difference with source `"Expires header"`, and
`Expires <= Date` should give `0` with source `"Expires header (past date)"`;
in particular Cache-Control absent with `Expires` one hour after `Date`
should give TTL 3600.  The code cannot do any of this: the try-block body
references the undefined name `timezone` (never imported), so it raises
`NameError` on every input and the `except Exception: pass` swallows it (see
`expiresDateDelta`).  This theorem evaluates the embedded code on the
claim's own scenario: with Cache-Control absent (`"unknown"`) the resolver
returns no TTL and source `"unknown"` for every pair of `Expires`/`Date`
values, in particular for the claim's one-hour-apart dates, where the claim
requires `(3600, "Expires header")`. -/
theorem c1_expires_fallback_dead (e d : String) :
    parse_origin_ttl "unknown" e d = (none, "unknown") := by
  unfold parse_origin_ttl ccBase expiresDateDelta
  simp

/-- C2.  Cache-Control precedence of the origin TTL resolver, for every
Cache-Control value other than the sentinel and all `Expires`/`Date` values:
(1) when the `s-maxage=(\d+)` search yields `n` and no
`no-cache`/`no-store`/`private` directive occurs, the result is
`(n, "s-maxage")` — regardless of any `max-age` directive; (2) when the
`s-maxage` search fails, the `max-age=(\d+)` search yields `n` and no
no-cache directive occurs, the result is `(n, "max-age")`; (3) and (4): when
a no-cache directive also occurs, the TTL is overridden to `0` and the
source gains the `" (overridden by no-cache/private)"` suffix exactly when
the chosen TTL was positive, else becomes plain `"no-cache/private"`;
(5) the claim's example `"s-maxage=60, max-age=30"` yields
`(60, "s-maxage")`. -/
theorem c2_cache_control_precedence (cc e d : String) (hcc : cc ≠ "unknown") :
    (∀ n : Nat, findNumAfter smaxagePat (lowerL cc.data) = some n →
      noCacheM (lowerL cc.data) = false →
      parse_origin_ttl cc e d = (some n, "s-maxage")) ∧
    (∀ n : Nat, findNumAfter smaxagePat (lowerL cc.data) = none →
      findNumAfter maxagePat (lowerL cc.data) = some n →
      noCacheM (lowerL cc.data) = false →
      parse_origin_ttl cc e d = (some n, "max-age")) ∧
    (∀ n : Nat, findNumAfter smaxagePat (lowerL cc.data) = some n →
      noCacheM (lowerL cc.data) = true →
      parse_origin_ttl cc e d =
        (some 0,
          if 0 < n then "s-maxage (overridden by no-cache/private)" else "no-cache/private")) ∧
    (∀ n : Nat, findNumAfter smaxagePat (lowerL cc.data) = none →
      findNumAfter maxagePat (lowerL cc.data) = some n →
      noCacheM (lowerL cc.data) = true →
      parse_origin_ttl cc e d =
        (some 0,
          if 0 < n then "max-age (overridden by no-cache/private)" else "no-cache/private")) ∧
    (cc = "s-maxage=60, max-age=30" → parse_origin_ttl cc e d = (some 60, "s-maxage")) := by
  refine ⟨?_, ?_, ?_, ?_, ?_⟩
  · intro n hsm hnc
    have hb : ccBase cc = (some n, "s-maxage") := by
      unfold ccBase
      rw [if_pos hcc, hsm, hnc]
    unfold parse_origin_ttl
    rw [hb]
  · intro n hsm hma hnc
    have hb : ccBase cc = (some n, "max-age") := by
      unfold ccBase
      rw [if_pos hcc, hsm, hma, hnc]
    unfold parse_origin_ttl
    rw [hb]
  · intro n hsm hnc
    by_cases hn : 0 < n
    · have hb : ccBase cc = (some 0, "s-maxage (overridden by no-cache/private)") := by
        unfold ccBase
        rw [if_pos hcc, hsm, hnc]
        simp [hn]
      unfold parse_origin_ttl
      rw [hb, if_pos hn]
    · have hb : ccBase cc = (some 0, "no-cache/private") := by
        unfold ccBase
        rw [if_pos hcc, hsm, hnc]
        simp [hn]
      unfold parse_origin_ttl
      rw [hb, if_neg hn]
  · intro n hsm hma hnc
    by_cases hn : 0 < n
    · have hb : ccBase cc = (some 0, "max-age (overridden by no-cache/private)") := by
        unfold ccBase
        rw [if_pos hcc, hsm, hma, hnc]
        simp [hn]
      unfold parse_origin_ttl
      rw [hb, if_pos hn]
    · have hb : ccBase cc = (some 0, "no-cache/private") := by
        unfold ccBase
        rw [if_pos hcc, hsm, hma, hnc]
        simp [hn]
      unfold parse_origin_ttl
      rw [hb, if_neg hn]
  · intro hceq
    subst hceq
    have hb : ccBase "s-maxage=60, max-age=30" = (some 60, "s-maxage") := by decide
    unfold parse_origin_ttl
    rw [hb]

/-- Witness for C2: the claim's example, with concrete `Expires`/`Date`. -/
theorem c2_witness :
    parse_origin_ttl "s-maxage=60, max-age=30" "unknown" "unknown" = (some 60, "s-maxage") :=
  (c2_cache_control_precedence "s-maxage=60, max-age=30" "unknown" "unknown"
    (by decide)).2.2.2.2 rfl

/-- Counterexample for C3.  The claim says the source is exactly
`"no-cache/private"` for Cache-Control `"max-age=120, no-cache"`; the code
annotates the chosen `max-age` source instead, because the chosen TTL 120 is
positive. -/
theorem c3_counterexample :
    parse_origin_ttl "max-age=120, no-cache" "unknown" "unknown" =
      (some 0, "max-age (overridden by no-cache/private)") ∧
    ("max-age (overridden by no-cache/private)" : String) ≠ "no-cache/private" := by
  constructor
  · decide
  · decide

/-- C3 amended: for the input Cache-Control value `"max-age=120, no-cache"`
(any `Expires`/`Date`), the origin TTL resolver returns TTL 0 with source
exactly `"max-age (overridden by no-cache/private)"`. -/
theorem c3_amended_override_source (e d : String) :
    parse_origin_ttl "max-age=120, no-cache" e d =
      (some 0, "max-age (overridden by no-cache/private)") := by
  have hb : ccBase "max-age=120, no-cache" =
      (some 0, "max-age (overridden by no-cache/private)") := by decide
  unfold parse_origin_ttl
  rw [hb]

/-- C10.  For every Cache-Control value other than the sentinel in which the
`no-cache|no-store|private` search hits but neither numeric directive search
does, the resolver returns `(0, "no-cache/private")` — the same pair for all
`Expires` and `Date` values (they are never consulted), including a future
`Expires`. -/
theorem c10_no_cache_ignores_expires (cc e d : String) (h1 : cc ≠ "unknown")
    (h2 : noCacheM (lowerL cc.data) = true)
    (h3 : findNumAfter smaxagePat (lowerL cc.data) = none)
    (h4 : findNumAfter maxagePat (lowerL cc.data) = none) :
    parse_origin_ttl cc e d = (some 0, "no-cache/private") := by
  have hb : ccBase cc = (some 0, "no-cache/private") := by
    unfold ccBase
    rw [if_pos h1, h2, h3, h4]
  unfold parse_origin_ttl
  rw [hb]

/-- Witness for C10: `"no-cache"` with a future-dated `Expires` (one hour
after `Date`) still yields `(0, "no-cache/private")`. -/
theorem c10_witness :
    parse_origin_ttl "no-cache" "Thu, 01 Jan 2026 01:00:00 GMT" "Thu, 01 Jan 2026 00:00:00 GMT"
      = (some 0, "no-cache/private") :=
  c10_no_cache_ignores_expires "no-cache" "Thu, 01 Jan 2026 01:00:00 GMT"
    "Thu, 01 Jan 2026 00:00:00 GMT" (by decide) (by decide) (by decide) (by decide)

/-- Counterexample for C4.  Order-independence fails as soon as two accepted
pairs share a key: the blobs below have comma-segment lists that are
permutations of each other, but parsing gives `{K: B}` for one and `{K: A}`
for the other — the later (rightmost) pair wins, so swapping the segments
changes the map. -/
theorem c4_counterexample :
    (pySplit [','] ("name=K; value=A,name=K; value=B").data).Perm
      (pySplit [','] ("name=K; value=B,name=K; value=A").data) ∧
    parse_session_info pyUnquote "name=K; value=A,name=K; value=B" = some [("K", "B")] ∧
    parse_session_info pyUnquote "name=K; value=B,name=K; value=A" = some [("K", "A")] ∧
    ¬ mapEquiv [("K", "B")] [("K", "A")] :=
  ⟨by decide, by decide, by decide, fun h => absurd (h "K") (by decide)⟩

/-- C4 amended.  Session-info parsing is a pure function (determinism is
definitional), and: (1) it is total — for every input string, every `unq`,
it returns a dict rather than raising, i.e. the `parts[1]` indexing inside
the loop is protected by the `"; value=" in pair` guard; (2) a
comma-separated segment lacking the literal `"name="` or `"; value="`
contributes nothing: dropping such a segment from the segment list leaves
the parse unchanged; (3) parsing any comma-segment permutation of the blob
yields the same map, provided the accepted pairs of the blob carry pairwise
distinct key names (by the counterexample, the restriction cannot be
dropped: with duplicate keys the rightmost pair wins). -/
theorem c4_amended_session_parse (unq : String → String) :
    (∀ s : String, ∃ d, parse_session_info unq s = some d) ∧
    (∀ (pre post : List (List Char)) (seg : List Char),
      containsSub nameMark seg = false ∨ containsSub valMark seg = false →
      parsePairs unq (pre ++ seg :: post) = parsePairs unq (pre ++ post)) ∧
    (∀ s t : String,
      (pySplit [','] s.data).Perm (pySplit [','] t.data) →
      (List.map Prod.fst (acceptedPairs unq (pySplit [','] s.data))).Nodup →
      ∃ d1 d2, parse_session_info unq s = some d1 ∧ parse_session_info unq t = some d2 ∧
        mapEquiv d1 d2) := by
  refine ⟨fun s => ⟨_, parse_session_info_eq unq s⟩, ?_, ?_⟩
  · intro pre post seg hseg
    have hnone : segPair unq seg = none := by
      unfold segPair
      rcases hseg with h | h <;> simp [h]
    rw [parsePairs_eq, parsePairs_eq]
    unfold acceptedPairs
    rw [List.filterMap_append, List.filterMap_append, List.filterMap_cons, hnone]
  · intro s t hperm hnodup
    refine ⟨_, _, parse_session_info_eq unq s, parse_session_info_eq unq t, ?_⟩
    intro k
    rw [foldl_dictInsert_lookup, foldl_dictInsert_lookup]
    exact lookupLast_perm _ _ (hperm.filterMap (segPair unq)) hnodup k

/-- Witness for C4: a three-segment blob (one segment malformed) and a
cyclic permutation of its segments parse to equal maps. -/
theorem c4_witness :
    ∃ d1 d2,
      parse_session_info pyUnquote "name=A; value=1,junk,name=B; value=2" = some d1 ∧
      parse_session_info pyUnquote "junk,name=B; value=2,name=A; value=1" = some d2 ∧
      mapEquiv d1 d2 :=
  (c4_amended_session_parse pyUnquote).2.2
    "name=A; value=1,junk,name=B; value=2" "junk,name=B; value=2,name=A; value=1"
    (by decide) (by decide)

/-- C9.  For every input blob and every `unq`, the parse succeeds and,
for every key, the resulting dict holds exactly the value of the last
(rightmost) accepted pair with that key name: a later accepted pair with the
same name overwrites an earlier one. -/
theorem c9_last_pair_wins (unq : String → String) (s : String) :
    ∃ d, parse_session_info unq s = some d ∧
      ∀ k, assocLookup d k = lookupLast (acceptedPairs unq (pySplit [','] s.data)) k :=
  ⟨_, parse_session_info_eq unq s, fun k => foldl_dictInsert_lookup _ k⟩

/-- C7.  For every directive list `D`, the `Pragma` header of the request
built by `fetch_akamai_headers` is the `","`-join of `D` in original order,
and is absent from the header map entirely when `D` is empty; the fixed
request of `fetch_headers_for_analysis` carries the `","`-join of the full
Directive Catalog. -/
theorem c7_pragma_header :
    (∀ D : List String,
      assocLookup (build_request_headers D) "Pragma" =
        if D = [] then none else some (String.intercalate "," D)) ∧
    assocLookup analysis_request_headers "Pragma" =
      some (String.intercalate "," DEFAULT_AKAMAI_PRAGMA_HEADERS) := by
  constructor
  · intro D
    by_cases h : D = []
    · subst h
      decide
    · rw [if_neg h]
      unfold build_request_headers
      rw [if_neg h]
      rfl
  · rfl

/-- C5.  The cache-key TTL extractor: (1)/(2) an empty (absent) or
`"unknown"` cache key gives `None`; (3) a cache key in which the literal
`"L/"` never occurs cannot match the pattern and gives `None`; (4) a key of
the shape `/L/<seg>/<seg>/<ttl>/...` — and (5) with an optional leading `S/`
segment, `/S/L/<seg>/<seg>/<ttl>/...` — yields the third segment after the
`L/` marker, for arbitrary nonempty slash-free segments. -/
theorem c5_cache_key_ttl :
    parse_cache_key_ttl "" = none ∧
    parse_cache_key_ttl "unknown" = none ∧
    (∀ k : String, containsSub ['L', '/'] k.data = false → parse_cache_key_ttl k = none) ∧
    (∀ a b c r : List Char, a ≠ [] → b ≠ [] → c ≠ [] →
      (∀ x ∈ a, x ≠ '/') → (∀ x ∈ b, x ≠ '/') → (∀ x ∈ c, x ≠ '/') →
      parse_cache_key_ttl
          (String.mk ('/' :: 'L' :: '/' :: (a ++ '/' :: (b ++ '/' :: (c ++ '/' :: r)))))
        = some (String.mk c)) ∧
    (∀ a b c r : List Char, a ≠ [] → b ≠ [] → c ≠ [] →
      (∀ x ∈ a, x ≠ '/') → (∀ x ∈ b, x ≠ '/') → (∀ x ∈ c, x ≠ '/') →
      parse_cache_key_ttl
          (String.mk ('/' :: 'S' :: '/' :: 'L' :: '/' :: (a ++ '/' :: (b ++ '/' :: (c ++ '/' :: r)))))
        = some (String.mk c)) := by
  have hguard : ∀ l : List Char, l.head? = some '/' →
      ¬(String.mk l = "" ∨ String.mk l = "unknown") := by
    intro l hh
    rintro (h | h) <;> rw [String.ext_iff] at h <;>
      exact absurd (hh ▸ congrArg List.head? h) (by decide)
  refine ⟨by decide, by decide, ?_, ?_, ?_⟩
  · intro k h
    unfold parse_cache_key_ttl
    split
    · rfl
    · rcases hs : searchCK k.data with _ | cap
      · rfl
      · exact absurd (searchCK_contains _ _ hs) (by simp [h])
  · intro a b c r ha hb hc hsa hsb hsc
    unfold parse_cache_key_ttl
    rw [if_neg (hguard ('/' :: 'L' :: '/' :: (a ++ '/' :: (b ++ '/' :: (c ++ '/' :: r)))) rfl)]
    have hdata :
        (String.mk ('/' :: 'L' :: '/' :: (a ++ '/' :: (b ++ '/' :: (c ++ '/' :: r))))).data
          = '/' :: 'L' :: '/' :: (a ++ '/' :: (b ++ '/' :: (c ++ '/' :: r))) := rfl
    rw [hdata, searchCK_posL a b c r ha hb hc hsa hsb hsc]
    rfl
  · intro a b c r ha hb hc hsa hsb hsc
    unfold parse_cache_key_ttl
    rw [if_neg
      (hguard ('/' :: 'S' :: '/' :: 'L' :: '/' :: (a ++ '/' :: (b ++ '/' :: (c ++ '/' :: r)))) rfl)]
    have hdata :
        (String.mk ('/' :: 'S' :: '/' :: 'L' :: '/' :: (a ++ '/' :: (b ++ '/' :: (c ++ '/' :: r))))).data
          = '/' :: 'S' :: '/' :: 'L' :: '/' :: (a ++ '/' :: (b ++ '/' :: (c ++ '/' :: r))) := rfl
    rw [hdata, searchCK_posS a b c r ha hb hc hsa hsb hsc]
    rfl

/-- Witness for C5: the claim's example key yields `"1d"`, via the general
`/L/<seg>/<seg>/<ttl>/...` part of the theorem. -/
theorem c5_witness :
    parse_cache_key_ttl "/L/www.example.com/abc123/1d/xyz/" = some "1d" := by
  have h := c5_cache_key_ttl.2.2.2.1 ("www.example.com").data ("abc123").data ("1d").data
    ("xyz/").data (by decide) (by decide) (by decide) (by decide) (by decide) (by decide)
  have heq : String.mk
      ('/' :: 'L' :: '/' ::
        (("www.example.com").data ++ '/' ::
          (("abc123").data ++ '/' :: (("1d").data ++ '/' :: ("xyz/").data))))
      = "/L/www.example.com/abc123/1d/xyz/" := by decide
  have heq2 : String.mk ("1d").data = "1d" := by decide
  rw [heq, heq2] at h
  exact h

/-- C8.  The extractor is total: for every function standing in for the
library `unquote` and every header list — any names, any values, any casing
— `extract_analysis_data` returns a full `AnalysisData` record (whose fields
are all intrinsically present and `String`-valued, each reading either its
source header or the `"N/A"` sentinel) rather than raising: the two
`Option`-modelled indexing steps always succeed behind their guards. -/
theorem c8_extractor_total (unq : String → String) (headers : List (String × String)) :
    ∃ r : AnalysisData, extract_analysis_data unq headers = some r :=
  ⟨extractTotal unq headers, extract_eq unq headers⟩

/-- Counterexample for C6.  The claim promises the first
*whitespace*-delimited token; the code splits on the space character only,
so a value with a tab before its first space keeps the tab run:
`extract` yields `"A\tB"` where the claim's reading
(`specFirstWsToken`, written from the claim's words) yields `"A"`. -/
theorem c6_counterexample :
    (extract_analysis_data pyUnquote [("X-Cache", "A\tB from C D")]).map
        AnalysisData.cache_status = some "A\tB" ∧
    specFirstWsToken "A\tB from C D" = "A" ∧ ("A\tB" : String) ≠ "A" :=
  ⟨by decide, by decide, by decide⟩

/-- C6 amended.  For every header map that contains an `X-Cache` header
(case-insensitively; `v` its winning value), the extractor succeeds and:
`cache_status` is the prefix of `v` before the first *space* character (the
whole value if no space; the literal `"N/A"` maps to the sentinel), and
`cache_server_hostname` is the prefix before the first space of the piece of
`v` between the first `" from "` marker and the next (or the end), when
`" from "` occurs in `v`, else the sentinel.  On space-token values this is
exactly the claim: `"TCP_HIT from edge123.akamai.net (1)"` gives
`("TCP_HIT", "edge123.akamai.net")` (see the witness). -/
theorem c6_amended_xcache_tokens (unq : String → String)
    (headers : List (String × String)) (v : String)
    (h : assocLookup (headersLower headers) "x-cache" = some v) :
    (extract_analysis_data unq headers).map AnalysisData.cache_status =
      some (if v ≠ "N/A" then String.mk (beforeFirst [' '] v.data) else "N/A") ∧
    (extract_analysis_data unq headers).map AnalysisData.cache_server_hostname =
      some (if containsSub fromMark v.data then
              String.mk (beforeFirst [' '] (List.getD (pySplit fromMark v.data) 1 []))
            else "N/A") := by
  have hraw : dictGet (headersLower headers) "x-cache" "N/A" = v := by
    unfold dictGet
    rw [h]
    rfl
  rw [extract_eq]
  simp only [extractTotal, hraw]
  exact ⟨rfl, rfl⟩

/-- Witness for C6: the claim's example header value. -/
theorem c6_witness :
    (extract_analysis_data pyUnquote [("X-Cache", "TCP_HIT from edge123.akamai.net (1)")]).map
        AnalysisData.cache_status = some "TCP_HIT" ∧
    (extract_analysis_data pyUnquote [("X-Cache", "TCP_HIT from edge123.akamai.net (1)")]).map
        AnalysisData.cache_server_hostname = some "edge123.akamai.net" := by
  have h := c6_amended_xcache_tokens pyUnquote
    [("X-Cache", "TCP_HIT from edge123.akamai.net (1)")]
    "TCP_HIT from edge123.akamai.net (1)" (by decide)
  constructor
  · rw [h.1]
    decide
  · rw [h.2]
    decide
